import Mathlib

/-!
# Verification of the bill-diff-tool text pipeline

Shallow embedding of `src/main.py`: the speech-text normalizer
`preprocess_text_for_speech` (an ordered list of regex substitutions applied
with Python `re.sub` semantics), the prompt builder (the f-string template of
`compare_and_speak`), and the `/compare-and-speak` endpoint logic with its
LLM and TTS collaborators abstracted as function parameters.

Character classes (`\s`, `\w`, `\d`) are modelled over ASCII; Python's `re`
on `str` is Unicode-aware, but every pattern in the source targets ASCII
legislative shorthand and all inputs considered here are ASCII.
-/

/-- Python regex `\s` (ASCII part): space, tab, newline, carriage return,
vertical tab, form feed. -/
def isWs (c : Char) : Bool :=
  c == ' ' || c == '\t' || c == '\n' || c == '\r' || c == '\x0b' || c == '\x0c'

/-- Python regex `\w` (ASCII part): letters, digits, underscore. -/
def isWordChar (c : Char) : Bool :=
  c.isAlpha || c.isDigit || c == '_'

/-- `\b` before a word character: holds at the string start or after a
non-word character.  (All patterns in the table place `\b` directly before
a letter, so this is the only case needed.) -/
def boundaryOk : Option Char → Bool
  | none => true
  | some c => !isWordChar c

/-- Does `needle` occur as a literal prefix of `hay`? -/
def isPre : List Char → List Char → Bool
  | [], _ => true
  | _ :: _, [] => false
  | a :: as, b :: bs => a == b && isPre as bs

/-- Does `needle` occur as a contiguous substring of `hay`?  (The recursive
call sits in tail position so that evaluation on long texts iterates.) -/
def containsSub (needle : List Char) : List Char → Bool
  | [] => isPre needle []
  | c :: t =>
      match isPre needle (c :: t) with
      | true => true
      | false => containsSub needle t

/-- Length of the leading whitespace run (greedy `\s*`). -/
def countWs : List Char → Nat
  | [] => 0
  | c :: t => if isWs c then countWs t + 1 else 0

/-- Length of the leading non-whitespace run (greedy `\S+`, before the
one-or-more check). -/
def countNonWs : List Char → Nat
  | [] => 0
  | c :: t => if isWs c then 0 else countNonWs t + 1

/-- The shapes of regex pattern occurring in the `replacements` table of
`preprocess_text_for_speech`:
* `codeNum code` is `\b<code>\s*(?=\d)`;
* `codeAlone code` is `\b<code>\b`;
* `charSet cs` is a single-character class `[...]`;
* `lit c` is a single literal character (`§`, `&`, `_`, `%`, `\+`, `=`);
* `url` is `https?://\S+`;
* `wsPlus` is `\s+`. -/
inductive Pat where
  | codeNum (code : List Char)
  | codeAlone (code : List Char)
  | charSet (cs : List Char)
  | lit (c : Char)
  | url
  | wsPlus
deriving DecidableEq, BEq

/-- Attempt to match pattern `p` at the start of `s`, where `prev` is the
original character immediately before this position (`none` at the string
start; Python's `re` evaluates `\b` against the original text).  Returns the
number of characters consumed.  For `codeNum`, greedy `\s*` followed by the
lookahead `(?=\d)` succeeds exactly when the character after the maximal
whitespace run is a digit, since `\s` and `\d` are disjoint (backtracking
into the run would place a whitespace character under the lookahead). -/
def matchAt : Pat → Option Char → List Char → Option Nat
  | .codeNum code, prev, s =>
      if boundaryOk prev && isPre code s then
        let rest := s.drop code.length
        let w := countWs rest
        match rest.drop w with
        | d :: _ => if d.isDigit then some (code.length + w) else none
        | [] => none
      else none
  | .codeAlone code, prev, s =>
      if boundaryOk prev && isPre code s then
        match s.drop code.length with
        | [] => some code.length
        | c :: _ => if isWordChar c then none else some code.length
      else none
  | .charSet cs, _, s =>
      match s with
      | c :: _ => if cs.contains c then some 1 else none
      | [] => none
  | .lit ch, _, s =>
      match s with
      | c :: _ => if c == ch then some 1 else none
      | [] => none
  | .url, _, s =>
      if isPre "https://".data s then
        let n := countNonWs (s.drop 8)
        if n == 0 then none else some (8 + n)
      else if isPre "http://".data s then
        let n := countNonWs (s.drop 7)
        if n == 0 then none else some (7 + n)
      else none
  | .wsPlus, _, s =>
      let n := countWs s
      if n == 0 then none else some n

/-- One full pass of Python `re.sub(p, repl, ·)`: scan left to right, replace
each leftmost non-overlapping match, never rescanning replacement text, and
resume after the matched span.  `skip` counts characters of the current match
still to be dropped (so the recursion is structural in the text), and `prev`
is the original preceding character used for `\b`. -/
def subAllS (p : Pat) (repl : List Char) : Nat → Option Char → List Char → List Char
  | _, _, [] => []
  | skip + 1, _, c :: rest => subAllS p repl skip (some c) rest
  | 0, prev, c :: rest =>
      match matchAt p prev (c :: rest) with
      | some k => repl ++ subAllS p repl (k - 1) (some c) rest
      | none => c :: subAllS p repl 0 (some c) rest

/-- Apply one `(pattern, replacement)` rule to a whole string:
`re.sub(pattern, replacement, s)`. -/
def applyRule (s : List Char) (r : Pat × List Char) : List Char :=
  subAllS r.1 r.2 0 none s

/-- The character class `["\'()*\[\]{}]` from the source (rule 15). -/
def strippedChars : List Char :=
  ['\"', '\'', '(', ')', '*', '[', ']', '\x7b', '\x7d']

/-- The expansion text for `GM`, `Governor's Message` (written char-wise for
the embedded apostrophe). -/
def gmExpansion : List Char :=
  "Governor".data ++ '\'' :: "s Message".data

/-- The ordered substitution table `replacements` of
`preprocess_text_for_speech` in `src/main.py`, transcribed rule for rule. -/
def replacements : List (Pat × List Char) :=
  [ (.codeNum "HB".data, "House Bill ".data),
    (.codeAlone "HB".data, "House Bill".data),
    (.codeNum "SB".data, "Senate Bill ".data),
    (.codeAlone "SB".data, "Senate Bill".data),
    (.codeNum "HD".data, "House Draft ".data),
    (.codeAlone "HD".data, "House Draft".data),
    (.codeNum "SD".data, "Senate Draft ".data),
    (.codeAlone "SD".data, "Senate Draft".data),
    (.codeNum "CD".data, "Conference Draft ".data),
    (.codeAlone "CD".data, "Conference Draft".data),
    (.codeNum "FD".data, "Final Draft ".data),
    (.codeAlone "FD".data, "Final Draft".data),
    (.codeNum "GM".data, gmExpansion ++ " ".data),
    (.codeAlone "GM".data, gmExpansion),
    (.charSet strippedChars, []),
    (.lit '§', "Section ".data),
    (.lit '&', " and ".data),
    (.lit '_', " ".data),
    (.url, []),
    (.lit '%', " percent ".data),
    (.lit '+', " plus ".data),
    (.lit '=', " equals ".data),
    (.wsPlus, " ".data) ]

/-- `preprocess_text_for_speech` from `src/main.py`: fold the ordered rule
table over the text, each rule rewriting the previous rule's output. -/
def preprocess_text_for_speech (text : String) : String :=
  ⟨List.foldl applyRule text.data replacements⟩

example : preprocess_text_for_speech "the HB passed" = "the House Bill passed" := by decide
example : preprocess_text_for_speech "HBx" = "HBx" := by decide

/-- The fixed f-string template of `compare_and_speak` (`src/main.py`,
lines 132-155), split at the two interpolation sites.  `promptHeader` is
everything before `{request.bill1_text}` (role/task preamble, the numbered
guideline list, the worked example, and the "First Bill Text:" delimiter
with its indentation), `promptMiddle` is the text between the two
interpolations (the "Second Bill Text:" delimiter), and `promptFooter` is
the trailing newline and indentation. -/
def promptHeader : String :=
  "Role: Senior Legislative Analyst for a University Government Relations Office.\n            Task: Write a concise (about 100 - 150 words or 1500 characters) comparative summary of the changes between the two provided bill versions.\n\n            Guidelines:\n            1.  Identify Bill Versions: Look at the top of the provided text to identify the specific bill numbers (e.g., \"SB 119\", \"SB 119 CD1\"). Use these specific names in your summary. If names are not found, use \"the original bill\" and \"the amended version\".\n            2.  Single Paragraph: Output the entire summary as a single cohesive paragraph. Do not split into multiple paragraphs.\n            3.  Focus on \"Primary Differences\": Start immediately by stating the main differences (e.g., \"The primary differences between [Bill A] and [Bill B] lie in...\").\n            4.  Be Specific with Numbers: Explicitly compare funding amounts, fiscal years, and dates.\n            5.  Structure vs. Content: Note changes in organization (e.g., \"consolidates funding\") as well as content.\n            6.  Plain Language: Use simple, clear language. Avoid formal or complex words like \"predominantly\", \"itemized\", \"pursuant to\". Use everyday words instead (e.g., \"mainly\", \"listed\", \"under\").\n            7.  Concise & Direct: Professional, objective tone. No filler.\n            8.  No Hallucinations: Do not introduce any new facts, numbers, dates, or claims not present in the two provided bill texts. Rely only on the two bill texts as sources of truth.\n            9.  Striclty output plain text only: Do not use any markdown formatting. No bolding (**text**), no italics (*text*), no headers (#), no bullet points. Write in standard paragraph form only.\n            10. Standard Grammar: Use standard English grammar and capitalization. Do not uppercase words like \"OR\", \"AND\", or \"NOT\" for emphasis.\n\n            Example Style:\n            The primary differences between the original SB 119 and the final version, SB 119 CD1 (passed as Act 265), lie in the appropriation structure and the total funding amount for the second fiscal year. While both versions allocate $250,000 for fiscal year 2025-2026, the final CD1 version reduces the appropriation for fiscal year 2026-2027 from the originally proposed $430,000 to $350,000. Additionally, the original bill separated funding into specific line items for prerequisites, personnel, and supplies across multiple sections, whereas the final enacted version consolidates all funding into a single section with lump sums authorized for all program purposes.\n\n            First Bill Text:\n            "

/-- Template text between the two interpolated bill texts. -/
def promptMiddle : String :=
  "\n\n            Second Bill Text:\n            "

/-- Template text after the second interpolated bill text. -/
def promptFooter : String :=
  "\n            "

/-- The rendered prompt: the template with the two bill texts interpolated
verbatim (the normalizer is applied only to the LLM's output, never here). -/
def buildPrompt (bill1_text bill2_text : String) : String :=
  promptHeader ++ bill1_text ++ promptMiddle ++ bill2_text ++ promptFooter

/-- Request model `CompareRequest` (`src/main.py`, lines 39-41). -/
structure CompareRequest where
  bill1_text : String
  bill2_text : String
deriving DecidableEq

/-- Response model `CompareResponse` (`src/main.py`, lines 43-47). -/
structure CompareResponse where
  summary : String
  audio_base64 : Option String := none
  success : Bool
  error : Option String := none
deriving DecidableEq

/-- A Python exception as observed by the handler's `except` clauses:
either the `fastapi.HTTPException` raised by input validation (which carries
a status code and detail, and whose `str()` is `"<status>: <detail>"`), or a
plain `Exception` carrying a message. -/
inductive PyExn where
  | http (status : Nat) (detail : String)
  | exn (msg : String)
deriving DecidableEq

/-- Python `str(e)` for the two exception shapes (Starlette's
`HTTPException.__str__` renders `f"\x7bstatus_code\x7d: \x7bdetail\x7d"`). -/
def strOfExn : PyExn → String
  | .http status detail => Nat.repr status ++ ": " ++ detail
  | .exn msg => msg

/-- The HTTP-level outcome of a request: either a 200-class response carrying
the `CompareResponse` body, or an `HTTPException` escaping to the framework,
which renders it as a non-200 error response. -/
inductive HttpOutcome where
  | body (r : CompareResponse)
  | httpError (status : Nat) (detail : String)
deriving DecidableEq

/-- Python falsiness of `text.strip()`: true iff every character is
whitespace (equivalently, stripping leaves the empty string). -/
def isBlank (s : String) : Bool :=
  s.data.all isWs

/-- The body of the `try:` block of `compare_and_speak` (`src/main.py`,
lines 124-203).  `llm` models `genai.GenerativeModel(...).generate_content`:
`Except.error m` is a raised exception, `Except.ok none` a falsy response or
missing `.text`, and `Except.ok (some t)` a response whose `.text` is `t`
(`t = ""` is falsy in Python and triggers the same
`"Gemini API returned empty response"` failure).  `synth` models the
text-to-speech call chain (client construction, `synthesize_speech`, and
base64 encoding of the audio bytes): `Except.error` is any raised exception,
`Except.ok a` the base64-encoded audio.  Its input is the normalized
summary, and any failure is swallowed, leaving `audio_base64 = none`. -/
def compare_inner (llm : String → Except String (Option String))
    (synth : String → Except String String)
    (request : CompareRequest) : Except PyExn CompareResponse :=
  if isBlank request.bill1_text || isBlank request.bill2_text then
    .error (.http 400 "Both bill texts must be provided")
  else
    let prompt := buildPrompt request.bill1_text request.bill2_text
    match llm prompt with
    | .error m => .error (.exn m)
    | .ok none => .error (.exn "Gemini API returned empty response")
    | .ok (some summary_text) =>
        if summary_text = "" then
          .error (.exn "Gemini API returned empty response")
        else
          let audio_base64 :=
            match synth (preprocess_text_for_speech summary_text) with
            | .ok a => some a
            | .error _ => none
          .ok { summary := summary_text, audio_base64 := audio_base64,
                success := true, error := none }

/-- The `/compare-and-speak` endpoint (`src/main.py`, lines 121-212).  The
`except Exception` clause at line 205 catches every exception raised in the
`try:` block — including the validation `HTTPException` — and converts it
into a 200-class `CompareResponse` body; no exception escapes to the
framework, so `HttpOutcome.httpError` is never produced. -/
def compare_and_speak (llm : String → Except String (Option String))
    (synth : String → Except String String)
    (request : CompareRequest) : HttpOutcome :=
  match compare_inner llm synth request with
  | .ok resp => .body resp
  | .error e =>
      .body { summary := "", audio_base64 := none, success := false,
              error := some ("Failed to process request: " ++ strOfExn e) }

/-- The effect of `\s+ → " "` on text with no adjacent whitespace pair:
each whitespace character is replaced by a single space. -/
def mapWs (s : List Char) : List Char :=
  s.map (fun c => if isWs c then ' ' else c)

/-- No two adjacent whitespace characters (every whitespace run has length
one), the "multi-character whitespace run" freeness of an already-normalized
string. -/
def noDoubleWs : List Char → Bool
  | c1 :: c2 :: r => !(isWs c1 && isWs c2) && noDoubleWs (c2 :: r)
  | _ => true

/-- The special characters whose presence the normalizer's later rules react
to: the stripped class plus the six verbalized symbols. -/
def specialChar (c : Char) : Bool :=
  strippedChars.contains c || c == '§' || c == '&' || c == '_' ||
  c == '%' || c == '+' || c == '='

/-- "Already normalized" in the sense of the specification: no draft-code
abbreviation occurs as a substring, no special symbol occurs, no URL occurs
(no `http://` or `https://` substring, which every match of `https?://\S+`
starts with), and no multi-character whitespace run occurs. -/
def isNormalized (s : List Char) : Prop :=
  containsSub "HB".data s = false ∧ containsSub "SB".data s = false ∧
  containsSub "HD".data s = false ∧ containsSub "SD".data s = false ∧
  containsSub "CD".data s = false ∧ containsSub "FD".data s = false ∧
  containsSub "GM".data s = false ∧
  (∀ c ∈ s, specialChar c = false) ∧
  containsSub "http://".data s = false ∧ containsSub "https://".data s = false ∧
  noDoubleWs s = true

instance decIsNormalized (s : List Char) : Decidable (isNormalized s) := by
  unfold isNormalized
  exact inferInstance

/-- Does `hay` end with `ending`? -/
def endsWith (ending hay : List Char) : Bool :=
  isPre ending.reverse hay.reverse

/-! ## Rule indices for the ordering claim -/

/-- Index in `replacements` of the number-preceding rule for `code`. -/
def numIdx (code : List Char) : Nat :=
  List.findIdx (fun r => r.1 == Pat.codeNum code) replacements

/-- Index in `replacements` of the standalone rule for `code`. -/
def aloneIdx (code : List Char) : Nat :=
  List.findIdx (fun r => r.1 == Pat.codeAlone code) replacements

/-! ## Basic character and matching lemmas -/

theorem isWs_eq_false_of_isDigit (c : Char) (h : c.isDigit = true) : isWs c = false := by
  by_contra hne
  rw [Bool.not_eq_false] at hne
  simp only [isWs, Bool.or_eq_true, beq_iff_eq] at hne
  rcases hne with ((((rfl | rfl) | rfl) | rfl) | rfl) | rfl <;> exact absurd h (by decide)

theorem beq_eq_false_of_isDigit {x c : Char} (hx : x.isDigit = false) (hc : c.isDigit = true) :
    (x == c) = false := by
  by_contra h
  rw [Bool.not_eq_false] at h
  rw [eq_of_beq h] at hx
  exact absurd hc (by simp [hx])

theorem countWs_eq_zero {l : List Char} (h : ∀ c ∈ l, isWs c = false) : countWs l = 0 := by
  cases l with
  | nil => rfl
  | cons c t => simp [countWs, h c (List.mem_cons_self c t)]

theorem isPre_append_left {a b t : List Char} (h : isPre (a ++ b) t = true) : isPre a t = true := by
  induction a generalizing t with
  | nil => rfl
  | cons x xs ih =>
      cases t with
      | nil => exact absurd h (by simp [isPre])
      | cons y ys =>
          simp only [List.cons_append, isPre, Bool.and_eq_true] at h ⊢
          exact ⟨h.1, ih h.2⟩

theorem isPre_self_append (a b : List Char) : isPre a (a ++ b) = true := by
  induction a with
  | nil => rfl
  | cons x xs ih => simp [isPre, ih]

theorem containsSub_cons (n : List Char) (c : Char) (t : List Char) :
    containsSub n (c :: t) = (isPre n (c :: t) || containsSub n t) := by
  cases hp : isPre n (c :: t) <;> simp [containsSub, hp]

theorem containsSub_of_isPre_suffix {n t s : List Char} (hsuf : t <:+ s) (h : isPre n t = true) :
    containsSub n s = true := by
  induction s with
  | nil =>
      obtain ⟨pre, hpre⟩ := hsuf
      have ht : t = [] := by
        cases pre <;> simp_all
      subst ht
      simpa [containsSub] using h
  | cons c rest ih =>
      rcases List.suffix_cons_iff.mp hsuf with rfl | htl
      · simp [containsSub_cons, h]
      · simp [containsSub_cons, ih htl]

theorem containsSub_cons_eq_false {x : Char} {xs s : List Char}
    (h : ∀ c ∈ s, (x == c) = false) : containsSub (x :: xs) s = false := by
  induction s with
  | nil => rfl
  | cons c t ih =>
      simp only [containsSub_cons, isPre, Bool.or_eq_false_iff, Bool.and_eq_false_iff]
      exact ⟨Or.inl (h c (List.mem_cons_self c t)),
             ih (fun a ha => h a (List.mem_cons_of_mem c ha))⟩

theorem contains_eq_false_of_not_mem {cs : List Char} {c : Char} (h : c ∉ cs) :
    cs.contains c = false := by
  simpa using h

/-! ## Identity lemmas for a single substitution pass -/

theorem subAllS_eq_self {p : Pat} {r s : List Char}
    (h : ∀ prev t, t <:+ s → matchAt p prev t = none) :
    ∀ prev, subAllS p r 0 prev s = s := by
  induction s with
  | nil => intro prev; rfl
  | cons c rest ih =>
      intro prev
      have hm : matchAt p prev (c :: rest) = none := h prev _ (List.suffix_refl _)
      have htail : subAllS p r 0 (some c) rest = rest :=
        ih (fun prev' t ht => h prev' t (ht.trans (List.suffix_cons c rest))) (some c)
      simp [subAllS, hm, htail]

theorem code_num_id {code r s : List Char} (h : containsSub code s = false) (prev : Option Char) :
    subAllS (.codeNum code) r 0 prev s = s := by
  apply subAllS_eq_self _ prev
  intro prev' t ht
  have hp : isPre code t = false := by
    by_contra hc
    rw [Bool.not_eq_false] at hc
    exact absurd (containsSub_of_isPre_suffix ht hc) (by simp [h])
  simp [matchAt, hp]

theorem code_alone_id {code r s : List Char} (h : containsSub code s = false) (prev : Option Char) :
    subAllS (.codeAlone code) r 0 prev s = s := by
  apply subAllS_eq_self _ prev
  intro prev' t ht
  have hp : isPre code t = false := by
    by_contra hc
    rw [Bool.not_eq_false] at hc
    exact absurd (containsSub_of_isPre_suffix ht hc) (by simp [h])
  simp [matchAt, hp]

theorem charSet_id {cs r s : List Char} (h : ∀ c ∈ s, cs.contains c = false) (prev : Option Char) :
    subAllS (.charSet cs) r 0 prev s = s := by
  apply subAllS_eq_self _ prev
  intro prev' t ht
  cases t with
  | nil => rfl
  | cons c t' =>
      have hc : c ∉ cs := by simpa using h c (ht.subset (List.mem_cons_self c t'))
      simp [matchAt, hc]

theorem lit_id {ch : Char} {r s : List Char} (h : ∀ c ∈ s, (c == ch) = false) (prev : Option Char) :
    subAllS (.lit ch) r 0 prev s = s := by
  apply subAllS_eq_self _ prev
  intro prev' t ht
  cases t with
  | nil => rfl
  | cons c t' =>
      have hc : (c == ch) = false := h c (ht.subset (List.mem_cons_self c t'))
      simp [matchAt, hc]

theorem url_id {r s : List Char} (h1 : containsSub "http://".data s = false)
    (h2 : containsSub "https://".data s = false) (prev : Option Char) :
    subAllS .url r 0 prev s = s := by
  apply subAllS_eq_self _ prev
  intro prev' t ht
  have ha : isPre "https://".data t = false := by
    by_contra hc
    rw [Bool.not_eq_false] at hc
    exact absurd (containsSub_of_isPre_suffix ht hc) (by simp [h2])
  have hb : isPre "http://".data t = false := by
    by_contra hc
    rw [Bool.not_eq_false] at hc
    exact absurd (containsSub_of_isPre_suffix ht hc) (by simp [h1])
  simp [matchAt, ha, hb]

theorem wsPlus_id {r s : List Char} (h : ∀ c ∈ s, isWs c = false) (prev : Option Char) :
    subAllS .wsPlus r 0 prev s = s := by
  apply subAllS_eq_self _ prev
  intro prev' t ht
  have : countWs t = 0 := countWs_eq_zero (fun c hc => h c (ht.subset hc))
  simp [matchAt, this]

/-! ## The whitespace-collapsing pass on single-space-separated text -/

theorem noDoubleWs_tail {c : Char} {t : List Char} (h : noDoubleWs (c :: t) = true) :
    noDoubleWs t = true := by
  cases t with
  | nil => rfl
  | cons c2 r =>
      simp only [noDoubleWs, Bool.and_eq_true] at h
      exact h.2

theorem noDoubleWs_of_noWs {l : List Char} (h : ∀ c ∈ l, isWs c = false) :
    noDoubleWs l = true := by
  induction l with
  | nil => rfl
  | cons c t ih =>
      cases t with
      | nil => rfl
      | cons c2 r =>
          simp only [noDoubleWs, Bool.and_eq_true]
          refine ⟨?_, ih (fun a ha => h a (List.mem_cons_of_mem c ha))⟩
          simp [h c (List.mem_cons_self c _)]

theorem countWs_cons_of_isWs {c : Char} {t : List Char} (hc : isWs c = true)
    (ht : noDoubleWs (c :: t) = true) : countWs (c :: t) = 1 := by
  cases t with
  | nil => simp [countWs, hc]
  | cons c2 r =>
      have h2 : isWs c2 = false := by
        have h' := ht
        simp [noDoubleWs, hc] at h'
        exact h'.1
      simp [countWs, hc, h2]

theorem wsPlus_map {s : List Char} (h : noDoubleWs s = true) :
    ∀ prev, subAllS .wsPlus " ".data 0 prev s = mapWs s := by
  induction s with
  | nil => intro prev; rfl
  | cons c rest ih =>
      intro prev
      by_cases hc : isWs c = true
      · have hcount : countWs (c :: rest) = 1 := countWs_cons_of_isWs hc h
        have hm : matchAt .wsPlus prev (c :: rest) = some 1 := by
          simp [matchAt, hcount]
        have htail : subAllS Pat.wsPlus " ".data 0 (some c) rest = mapWs rest :=
          ih (noDoubleWs_tail h) (some c)
        simp [subAllS, hm, htail, mapWs, hc]
      · rw [Bool.not_eq_true] at hc
        have hcount : countWs (c :: rest) = 0 := by simp [countWs, hc]
        have hm : matchAt .wsPlus prev (c :: rest) = none := by
          simp [matchAt, hcount]
        have htail : subAllS Pat.wsPlus " ".data 0 (some c) rest = mapWs rest :=
          ih (noDoubleWs_tail h) (some c)
        simp [subAllS, hm, htail, mapWs, hc]

/-! ## Character provenance through a substitution pass -/

theorem mem_subAllS {p : Pat} {r : List Char} :
    ∀ (s : List Char) (skip : Nat) (prev : Option Char) (a : Char),
      a ∈ subAllS p r skip prev s → a ∈ r ∨ a ∈ s := by
  intro s
  induction s with
  | nil => intro skip prev a ha; simp [subAllS] at ha
  | cons c rest ih =>
      intro skip prev a ha
      cases skip with
      | succ skip' =>
          rcases ih skip' (some c) a ha with h | h
          · exact Or.inl h
          · exact Or.inr (List.mem_cons_of_mem c h)
      | zero =>
          cases hm : matchAt p prev (c :: rest) with
          | some k =>
              rw [subAllS, hm] at ha
              rcases List.mem_append.mp ha with h | h
              · exact Or.inl h
              · rcases ih (k - 1) (some c) a h with h' | h'
                · exact Or.inl h'
                · exact Or.inr (List.mem_cons_of_mem c h')
          | none =>
              rw [subAllS, hm] at ha
              rcases List.mem_cons.mp ha with rfl | h
              · exact Or.inr (List.mem_cons_self a rest)
              · rcases ih 0 (some c) a h with h' | h'
                · exact Or.inl h'
                · exact Or.inr (List.mem_cons_of_mem c h')

theorem mem_charSet_deletion {cs : List Char} :
    ∀ (s : List Char) (skip : Nat) (prev : Option Char) (a : Char),
      a ∈ subAllS (.charSet cs) [] skip prev s → cs.contains a = false := by
  intro s
  induction s with
  | nil => intro skip prev a ha; simp [subAllS] at ha
  | cons c rest ih =>
      intro skip prev a ha
      cases skip with
      | succ skip' => exact ih skip' (some c) a ha
      | zero =>
          cases hm : matchAt (.charSet cs) prev (c :: rest) with
          | some k =>
              rw [subAllS, hm] at ha
              exact ih (k - 1) (some c) a (by simpa using ha)
          | none =>
              rw [subAllS, hm] at ha
              rcases List.mem_cons.mp ha with rfl | h
              · have : a ∉ cs := by simpa [matchAt] using hm
                exact contains_eq_false_of_not_mem this
              · exact ih 0 (some c) a h

/-! ## Folding the rule table -/

theorem foldl_fixed {s : List Char} {rs : List (Pat × List Char)}
    (h : ∀ r ∈ rs, applyRule s r = s) : List.foldl applyRule s rs = s := by
  induction rs with
  | nil => rfl
  | cons r rest ih =>
      rw [List.foldl_cons, h r (List.mem_cons_self r rest)]
      exact ih (fun r' hr' => h r' (List.mem_cons_of_mem r hr'))

theorem foldl_pres {P : Char → Prop} :
    ∀ (rs : List (Pat × List Char)) (s : List Char),
      (∀ c ∈ s, P c) → (∀ r ∈ rs, ∀ c ∈ r.2, P c) →
      ∀ c ∈ List.foldl applyRule s rs, P c := by
  intro rs
  induction rs with
  | nil => intro s hs _ c hc; exact hs c hc
  | cons r rest ih =>
      intro s hs hr c hc
      rw [List.foldl_cons] at hc
      refine ih (applyRule s r) ?_ (fun r' h' => hr r' (List.mem_cons_of_mem r h')) c hc
      intro a ha
      rcases mem_subAllS s 0 none a ha with h | h
      · exact hr r (List.mem_cons_self r rest) a h
      · exact hs a h

/-! ## Preservation of normalized shape under whitespace mapping -/

theorem isWs_mapChar (c : Char) : isWs (if isWs c then ' ' else c) = isWs c := by
  by_cases h : isWs c = true
  · rw [if_pos h, h]; rfl
  · rw [Bool.not_eq_true] at h
    rw [if_neg (by simp [h])]

theorem noDoubleWs_mapWs {s : List Char} (h : noDoubleWs s = true) :
    noDoubleWs (mapWs s) = true := by
  induction s with
  | nil => rfl
  | cons c t ih =>
      cases t with
      | nil => rfl
      | cons c2 r =>
          have hfirst : (!(isWs c && isWs c2)) = true := by
            by_contra hb
            rw [Bool.not_eq_true] at hb
            have hfalse : noDoubleWs (c :: c2 :: r) = false := by
              show (!(isWs c && isWs c2) && noDoubleWs (c2 :: r)) = false
              rw [hb]; rfl
            rw [hfalse] at h
            simp at h
          have htail : noDoubleWs (mapWs (c2 :: r)) = true := ih (noDoubleWs_tail h)
          show (!(isWs (if isWs c then ' ' else c) && isWs (if isWs c2 then ' ' else c2)) &&
                noDoubleWs (mapWs (c2 :: r))) = true
          rw [isWs_mapChar, isWs_mapChar, htail, hfirst]
          rfl

theorem mapWs_idem (s : List Char) : mapWs (mapWs s) = mapWs s := by
  simp only [mapWs, List.map_map]
  apply List.map_congr_left
  intro a _
  show (if isWs (if isWs a then ' ' else a) then ' '
        else (if isWs a then ' ' else a)) = (if isWs a then ' ' else a)
  rw [isWs_mapChar]
  by_cases h : isWs a = true
  · rw [if_pos h, if_pos h]
  · rw [if_neg h, if_neg h]

theorem mapWs_pres_forall {P : Char → Bool} {s : List Char}
    (hs : ∀ c ∈ s, P c = false) (hsp : P ' ' = false) :
    ∀ c ∈ mapWs s, P c = false := by
  intro c hc
  obtain ⟨a, ha, rfl⟩ := List.mem_map.mp hc
  by_cases h : isWs a = true
  · rw [if_pos h]; exact hsp
  · rw [if_neg h]; exact hs a ha

theorem mapWs_eq_self_of_noWs {s : List Char} (h : ∀ c ∈ s, isWs c = false) :
    mapWs s = s := by
  induction s with
  | nil => rfl
  | cons c t ih =>
      show (if isWs c then ' ' else c) :: mapWs t = c :: t
      rw [h c (List.mem_cons_self c t)]
      rw [ih (fun a ha => h a (List.mem_cons_of_mem c ha))]
      rfl

theorem isPre_of_mapWs {n : List Char} (hn : ∀ c ∈ n, isWs c = false) :
    ∀ t, isPre n (mapWs t) = true → isPre n t = true := by
  induction n with
  | nil => intro t _; rfl
  | cons x xs ih =>
      intro t h
      cases t with
      | nil => exact absurd h (by simp [mapWs, isPre])
      | cons c t' =>
          simp only [mapWs, List.map_cons, isPre, Bool.and_eq_true] at h
          obtain ⟨h1, h2⟩ := h
          by_cases hw : isWs c = true
          · rw [if_pos hw] at h1
            have hx : x = ' ' := eq_of_beq h1
            have hxw := hn x (List.mem_cons_self x xs)
            rw [hx] at hxw
            exact absurd hxw (by decide)
          · rw [Bool.not_eq_true] at hw
            rw [if_neg (by simp [hw])] at h1
            simp only [isPre, Bool.and_eq_true]
            exact ⟨h1, ih (fun a ha => hn a (List.mem_cons_of_mem x ha)) t' h2⟩

theorem containsSub_mapWs {n s : List Char} (hn : ∀ c ∈ n, isWs c = false)
    (h : containsSub n s = false) : containsSub n (mapWs s) = false := by
  induction s with
  | nil => simpa [mapWs] using h
  | cons c t ih =>
      simp only [containsSub_cons, Bool.or_eq_false_iff] at h
      have h2 := ih h.2
      show containsSub n (mapWs (c :: t)) = false
      rw [show mapWs (c :: t) = (if isWs c then ' ' else c) :: mapWs t from rfl]
      simp only [containsSub_cons, Bool.or_eq_false_iff]
      refine ⟨?_, h2⟩
      by_contra hb
      rw [Bool.not_eq_false] at hb
      have hpre : isPre n (mapWs (c :: t)) = true := by
        rw [show mapWs (c :: t) = (if isWs c then ' ' else c) :: mapWs t from rfl]
        exact hb
      exact absurd (isPre_of_mapWs hn _ hpre) (by simp [h.1])

/-! ## Already-normalized strings -/

theorem specialChar_split {c : Char} (h : specialChar c = false) :
    strippedChars.contains c = false ∧ (c == '§') = false ∧ (c == '&') = false ∧
    (c == '_') = false ∧ (c == '%') = false ∧ (c == '+') = false ∧ (c == '=') = false := by
  simp only [specialChar, Bool.or_eq_false_iff] at h
  exact ⟨h.1.1.1.1.1.1, h.1.1.1.1.1.2, h.1.1.1.1.2, h.1.1.1.2, h.1.1.2, h.1.2, h.2⟩

theorem isNormalized_mapWs {s : List Char} (h : isNormalized s) : isNormalized (mapWs s) := by
  obtain ⟨hHB, hSB, hHD, hSD, hCD, hFD, hGM, hall, hu1, hu2, hnd⟩ := h
  exact ⟨containsSub_mapWs (by decide) hHB, containsSub_mapWs (by decide) hSB,
    containsSub_mapWs (by decide) hHD, containsSub_mapWs (by decide) hSD,
    containsSub_mapWs (by decide) hCD, containsSub_mapWs (by decide) hFD,
    containsSub_mapWs (by decide) hGM,
    mapWs_pres_forall hall (by decide),
    containsSub_mapWs (by decide) hu1, containsSub_mapWs (by decide) hu2,
    noDoubleWs_mapWs hnd⟩

/-- On a string with none of the triggering material, each of the first 22
rules of the table is the identity. -/
theorem rules22_fixed {s : List Char}
    (hHB : containsSub "HB".data s = false) (hSB : containsSub "SB".data s = false)
    (hHD : containsSub "HD".data s = false) (hSD : containsSub "SD".data s = false)
    (hCD : containsSub "CD".data s = false) (hFD : containsSub "FD".data s = false)
    (hGM : containsSub "GM".data s = false)
    (hstr : ∀ c ∈ s, strippedChars.contains c = false)
    (hsec : ∀ c ∈ s, (c == '§') = false) (hamp : ∀ c ∈ s, (c == '&') = false)
    (hund : ∀ c ∈ s, (c == '_') = false) (hpct : ∀ c ∈ s, (c == '%') = false)
    (hplus : ∀ c ∈ s, (c == '+') = false) (heqs : ∀ c ∈ s, (c == '=') = false)
    (hu1 : containsSub "http://".data s = false)
    (hu2 : containsSub "https://".data s = false) :
    ∀ r ∈ replacements.take 22, applyRule s r = s := by
  intro r hr
  fin_cases hr
  · exact code_num_id hHB none
  · exact code_alone_id hHB none
  · exact code_num_id hSB none
  · exact code_alone_id hSB none
  · exact code_num_id hHD none
  · exact code_alone_id hHD none
  · exact code_num_id hSD none
  · exact code_alone_id hSD none
  · exact code_num_id hCD none
  · exact code_alone_id hCD none
  · exact code_num_id hFD none
  · exact code_alone_id hFD none
  · exact code_num_id hGM none
  · exact code_alone_id hGM none
  · exact charSet_id hstr none
  · exact lit_id hsec none
  · exact lit_id hamp none
  · exact lit_id hund none
  · exact url_id hu1 hu2 none
  · exact lit_id hpct none
  · exact lit_id hplus none
  · exact lit_id heqs none

/-- A full pass of the normalizer on an already-normalized string only maps
each single whitespace character to a plain space. -/
theorem pass_eq_mapWs {s : List Char} (h : isNormalized s) :
    List.foldl applyRule s replacements = mapWs s := by
  obtain ⟨hHB, hSB, hHD, hSD, hCD, hFD, hGM, hall, hu1, hu2, hnd⟩ := h
  have hsp := fun c hc => specialChar_split (hall c hc)
  have h22 : List.foldl applyRule s (replacements.take 22) = s :=
    foldl_fixed (rules22_fixed hHB hSB hHD hSD hCD hFD hGM
      (fun c hc => (hsp c hc).1) (fun c hc => (hsp c hc).2.1) (fun c hc => (hsp c hc).2.2.1)
      (fun c hc => (hsp c hc).2.2.2.1) (fun c hc => (hsp c hc).2.2.2.2.1)
      (fun c hc => (hsp c hc).2.2.2.2.2.1) (fun c hc => (hsp c hc).2.2.2.2.2.2)
      hu1 hu2)
  rw [← List.take_append_drop 22 replacements, List.foldl_append, h22]
  show List.foldl applyRule s [(Pat.wsPlus, " ".data)] = mapWs s
  simp only [List.foldl_cons, List.foldl_nil]
  exact wsPlus_map hnd none

/-! ## Substitution-step equations and digit-tail facts -/

theorem subAllS_cons_match {p : Pat} {r : List Char} {prev : Option Char} {c : Char}
    {rest : List Char} {k : Nat} (hm : matchAt p prev (c :: rest) = some k) :
    subAllS p r 0 prev (c :: rest) = r ++ subAllS p r (k - 1) (some c) rest := by
  simp only [subAllS, hm]

theorem digit_list_no_code {x : Char} {xs l : List Char} (hx : x.isDigit = false)
    (hl : ∀ c ∈ l, c.isDigit = true) : containsSub (x :: xs) l = false :=
  containsSub_cons_eq_false (fun c hc => beq_eq_false_of_isDigit hx (hl c hc))

theorem beq_eq_false_of_digit_left {c x : Char} (hc : c.isDigit = true)
    (hx : x.isDigit = false) : (c == x) = false := by
  by_contra h
  rw [Bool.not_eq_false] at h
  rw [eq_of_beq h] at hc
  simp [hx] at hc

theorem specialChar_eq_false_of_isDigit {c : Char} (h : c.isDigit = true) :
    specialChar c = false := by
  simp only [specialChar, Bool.or_eq_false_iff]
  refine ⟨⟨⟨⟨⟨⟨?_, ?_⟩, ?_⟩, ?_⟩, ?_⟩, ?_⟩, ?_⟩
  · apply contains_eq_false_of_not_mem
    intro hm
    fin_cases hm <;> exact absurd h (by decide)
  · exact beq_eq_false_of_digit_left h (by decide)
  · exact beq_eq_false_of_digit_left h (by decide)
  · exact beq_eq_false_of_digit_left h (by decide)
  · exact beq_eq_false_of_digit_left h (by decide)
  · exact beq_eq_false_of_digit_left h (by decide)
  · exact beq_eq_false_of_digit_left h (by decide)

/-- Every rule of the table leaves `"House Bill " ++ <digits>` unchanged:
the expansion text triggers no rule, and neither does a digit tail. -/
theorem rules_fixed_digit_tail {d : Char} {ds : List Char} (hd : d.isDigit = true)
    (hds : ∀ c ∈ ds, c.isDigit = true) :
    ∀ r ∈ replacements,
      applyRule ("House Bill ".data ++ d :: ds) r = "House Bill ".data ++ d :: ds := by
  have hl : ∀ c ∈ d :: ds, c.isDigit = true := by
    intro c hc
    rcases List.mem_cons.mp hc with rfl | hc'
    · exact hd
    · exact hds c hc'
  have hHB : containsSub "HB".data ("House Bill ".data ++ d :: ds) = false := by
    have e : containsSub "HB".data ("House Bill ".data ++ d :: ds)
           = containsSub "HB".data (d :: ds) := rfl
    rw [e]; exact digit_list_no_code (by decide) hl
  have hSB : containsSub "SB".data ("House Bill ".data ++ d :: ds) = false := by
    have e : containsSub "SB".data ("House Bill ".data ++ d :: ds)
           = containsSub "SB".data (d :: ds) := rfl
    rw [e]; exact digit_list_no_code (by decide) hl
  have hHD : containsSub "HD".data ("House Bill ".data ++ d :: ds) = false := by
    have e : containsSub "HD".data ("House Bill ".data ++ d :: ds)
           = containsSub "HD".data (d :: ds) := rfl
    rw [e]; exact digit_list_no_code (by decide) hl
  have hSD : containsSub "SD".data ("House Bill ".data ++ d :: ds) = false := by
    have e : containsSub "SD".data ("House Bill ".data ++ d :: ds)
           = containsSub "SD".data (d :: ds) := rfl
    rw [e]; exact digit_list_no_code (by decide) hl
  have hCD : containsSub "CD".data ("House Bill ".data ++ d :: ds) = false := by
    have e : containsSub "CD".data ("House Bill ".data ++ d :: ds)
           = containsSub "CD".data (d :: ds) := rfl
    rw [e]; exact digit_list_no_code (by decide) hl
  have hFD : containsSub "FD".data ("House Bill ".data ++ d :: ds) = false := by
    have e : containsSub "FD".data ("House Bill ".data ++ d :: ds)
           = containsSub "FD".data (d :: ds) := rfl
    rw [e]; exact digit_list_no_code (by decide) hl
  have hGM : containsSub "GM".data ("House Bill ".data ++ d :: ds) = false := by
    have e : containsSub "GM".data ("House Bill ".data ++ d :: ds)
           = containsSub "GM".data (d :: ds) := rfl
    rw [e]; exact digit_list_no_code (by decide) hl
  have hu1 : containsSub "http://".data ("House Bill ".data ++ d :: ds) = false := by
    have e : containsSub "http://".data ("House Bill ".data ++ d :: ds)
           = containsSub "http://".data (d :: ds) := rfl
    rw [e]; exact digit_list_no_code (by decide) hl
  have hu2 : containsSub "https://".data ("House Bill ".data ++ d :: ds) = false := by
    have e : containsSub "https://".data ("House Bill ".data ++ d :: ds)
           = containsSub "https://".data (d :: ds) := rfl
    rw [e]; exact digit_list_no_code (by decide) hl
  have hA : ∀ c ∈ "House Bill ".data, specialChar c = false := by decide
  have hchar : ∀ c ∈ "House Bill ".data ++ d :: ds, specialChar c = false := by
    intro c hc
    rcases List.mem_append.mp hc with h | h
    · exact hA c h
    · exact specialChar_eq_false_of_isDigit (hl c h)
  have hsp := fun c hc => specialChar_split (hchar c hc)
  have hndbl : noDoubleWs ("House Bill ".data ++ d :: ds) = true := by
    have e : noDoubleWs ("House Bill ".data ++ d :: ds)
           = (!(isWs d) && noDoubleWs (d :: ds)) := rfl
    rw [e, isWs_eq_false_of_isDigit d hd,
       noDoubleWs_of_noWs (fun c hc => isWs_eq_false_of_isDigit c (hl c hc))]
    rfl
  have hmap : mapWs ("House Bill ".data ++ d :: ds) = "House Bill ".data ++ d :: ds := by
    have h1 : mapWs "House Bill ".data = "House Bill ".data := by decide
    have h2 : mapWs (d :: ds) = d :: ds :=
      mapWs_eq_self_of_noWs (fun c hc => isWs_eq_false_of_isDigit c (hl c hc))
    calc mapWs ("House Bill ".data ++ d :: ds)
        = mapWs "House Bill ".data ++ mapWs (d :: ds) := List.map_append _ _ _
      _ = "House Bill ".data ++ d :: ds := by rw [h1, h2]
  intro r hr
  fin_cases hr
  · exact code_num_id hHB none
  · exact code_alone_id hHB none
  · exact code_num_id hSB none
  · exact code_alone_id hSB none
  · exact code_num_id hHD none
  · exact code_alone_id hHD none
  · exact code_num_id hSD none
  · exact code_alone_id hSD none
  · exact code_num_id hCD none
  · exact code_alone_id hCD none
  · exact code_num_id hFD none
  · exact code_alone_id hFD none
  · exact code_num_id hGM none
  · exact code_alone_id hGM none
  · exact charSet_id (fun c hc => (hsp c hc).1) none
  · exact lit_id (fun c hc => (hsp c hc).2.1) none
  · exact lit_id (fun c hc => (hsp c hc).2.2.1) none
  · exact lit_id (fun c hc => (hsp c hc).2.2.2.1) none
  · exact url_id hu1 hu2 none
  · exact lit_id (fun c hc => (hsp c hc).2.2.2.2.1) none
  · exact lit_id (fun c hc => (hsp c hc).2.2.2.2.2.1) none
  · exact lit_id (fun c hc => (hsp c hc).2.2.2.2.2.2) none
  · show subAllS .wsPlus " ".data 0 none ("House Bill ".data ++ d :: ds)
        = "House Bill ".data ++ d :: ds
    rw [wsPlus_map hndbl none, hmap]

/-- Normalizing `HB<digits>` yields `House Bill <digits>`, with the space
inserted by the number-preceding rule. -/
theorem preprocess_code_digit {d : Char} {ds : List Char} (hd : d.isDigit = true)
    (hds : ∀ c ∈ ds, c.isDigit = true) :
    preprocess_text_for_speech ⟨'H' :: 'B' :: d :: ds⟩ = ⟨"House Bill ".data ++ d :: ds⟩ := by
  have hl : ∀ c ∈ d :: ds, c.isDigit = true := by
    intro c hc
    rcases List.mem_cons.mp hc with rfl | hc'
    · exact hd
    · exact hds c hc'
  apply congrArg String.mk
  have hm : matchAt (Pat.codeNum "HB".data) none ('H' :: 'B' :: d :: ds) = some 2 := by
    have hw : countWs (d :: ds) = 0 :=
      countWs_eq_zero (fun c hc => isWs_eq_false_of_isDigit c (hl c hc))
    simp [matchAt, boundaryOk, isPre, hw, hd]
  have hstep1 : applyRule ('H' :: 'B' :: d :: ds) (Pat.codeNum "HB".data, "House Bill ".data)
      = "House Bill ".data ++ d :: ds := by
    show subAllS (Pat.codeNum "HB".data) "House Bill ".data 0 none ('H' :: 'B' :: d :: ds)
        = "House Bill ".data ++ d :: ds
    rw [subAllS_cons_match hm]
    have e2 : subAllS (Pat.codeNum "HB".data) "House Bill ".data (2 - 1) (some 'H')
        ('B' :: d :: ds)
        = subAllS (Pat.codeNum "HB".data) "House Bill ".data 0 (some 'B') (d :: ds) := rfl
    rw [e2, code_num_id (digit_list_no_code (by decide) hl) (some 'B')]
  have e0 : List.foldl applyRule ('H' :: 'B' :: d :: ds) replacements
      = List.foldl applyRule
          (applyRule ('H' :: 'B' :: d :: ds) (Pat.codeNum "HB".data, "House Bill ".data))
          replacements.tail := by
    rw [show replacements
        = (Pat.codeNum "HB".data, "House Bill ".data) :: replacements.tail from rfl]
    rw [List.foldl_cons, List.tail_cons]
  rw [e0, hstep1]
  exact foldl_fixed (fun r hr => rules_fixed_digit_tail hd hds r (List.mem_of_mem_tail hr))

/-! ## Word-boundary behaviour of the abbreviation patterns -/

theorem matchAt_codeNum_word_prev (code : List Char) (p : Char) (s : List Char)
    (h : isWordChar p = true) : matchAt (.codeNum code) (some p) s = none := by
  simp [matchAt, boundaryOk, h]

theorem matchAt_codeAlone_word_prev (code : List Char) (p : Char) (s : List Char)
    (h : isWordChar p = true) : matchAt (.codeAlone code) (some p) s = none := by
  simp [matchAt, boundaryOk, h]

theorem matchAt_codeAlone_word_next (code : List Char) (prev : Option Char) (c : Char)
    (rest : List Char) (h : isWordChar c = true) :
    matchAt (.codeAlone code) prev (code ++ c :: rest) = none := by
  simp [matchAt, isPre_self_append, List.drop_left, h]

theorem matchAt_codeNum_nondigit_next (code : List Char) (prev : Option Char) (c : Char)
    (rest : List Char) (hw : isWs c = false) (hd : c.isDigit = false) :
    matchAt (.codeNum code) prev (code ++ c :: rest) = none := by
  simp [matchAt, isPre_self_append, List.drop_left, countWs, hw, hd]

/-! ## No stripped character survives normalization -/

theorem preprocess_mk (s : String) :
    preprocess_text_for_speech s
      = String.mk (List.foldl applyRule s.data replacements) := rfl

theorem data_mk (l : List Char) : (String.mk l).data = l := rfl

theorem preprocess_no_strippedChars (s : String) (c : Char)
    (hc : c ∈ (preprocess_text_for_speech s).data) : strippedChars.contains c = false := by
  rw [preprocess_mk, data_mk] at hc
  rw [← List.take_append_drop 15 replacements, List.foldl_append] at hc
  have h15 : ∀ a ∈ List.foldl applyRule s.data (replacements.take 15),
      strippedChars.contains a = false := by
    intro a ha
    rw [show replacements.take 15
        = replacements.take 14 ++ [(Pat.charSet strippedChars, ([] : List Char))] from rfl,
      List.foldl_append, List.foldl_cons, List.foldl_nil] at ha
    exact mem_charSet_deletion _ 0 none a ha
  refine foldl_pres (replacements.drop 15) _ h15 ?_ c hc
  intro r hr
  fin_cases hr <;> decide

/-! ## Helpers for the endpoint claims -/

theorem failed_ne_empty (x : String) : ("Failed to process request: " ++ x) ≠ "" := by
  intro h
  have hlen := congrArg String.length h
  rw [String.length_append] at hlen
  have h27 : ("Failed to process request: " : String).length = 27 := rfl
  have h0 : ("" : String).length = 0 := rfl
  rw [h27, h0] at hlen
  omega

/-! ## Claims -/

/-- C1: with `bill1_text` blank, the endpoint does not surface a 400-class
HTTP error: the validation `HTTPException` is caught by the blanket
`except Exception` handler and encoded into a 200-class response body with
`success = false`, independently of the LLM and TTS collaborators (which are
never consulted). -/
theorem c1_blank_input_yields_error_body
    (llm : String → Except String (Option String)) (synth : String → Except String String) :
    compare_and_speak llm synth ⟨"", "text"⟩
      = .body { summary := "", audio_base64 := none, success := false,
                error := some "Failed to process request: 400: Both bill texts must be provided" }
    ∧ (∀ (llm' : String → Except String (Option String))
         (synth' : String → Except String String),
        compare_and_speak llm' synth' ⟨"", "text"⟩ = compare_and_speak llm synth ⟨"", "text"⟩)
    ∧ ∀ (st : Nat) (d : String), compare_and_speak llm synth ⟨"", "text"⟩ ≠ .httpError st d := by
  refine ⟨rfl, fun _ _ => rfl, fun st d h => ?_⟩
  exact HttpOutcome.noConfusion h

/-- C2: in the rule table, each draft code's number-preceding rule precedes
its standalone rule; rules are folded in list order over the cumulative text;
and a code directly followed by digits normalizes to the expansion with a
space before the digits (universally for `HB`, and at concrete inputs for all
seven codes — `GM`'s expansion appears with its apostrophe stripped by the
later punctuation rule). -/
theorem c2_rule_order_and_digit_spacing :
    ((numIdx "HB".data < aloneIdx "HB".data ∧ aloneIdx "HB".data < replacements.length) ∧
     (numIdx "SB".data < aloneIdx "SB".data ∧ aloneIdx "SB".data < replacements.length) ∧
     (numIdx "HD".data < aloneIdx "HD".data ∧ aloneIdx "HD".data < replacements.length) ∧
     (numIdx "SD".data < aloneIdx "SD".data ∧ aloneIdx "SD".data < replacements.length) ∧
     (numIdx "CD".data < aloneIdx "CD".data ∧ aloneIdx "CD".data < replacements.length) ∧
     (numIdx "FD".data < aloneIdx "FD".data ∧ aloneIdx "FD".data < replacements.length) ∧
     (numIdx "GM".data < aloneIdx "GM".data ∧ aloneIdx "GM".data < replacements.length)) ∧
    (∀ (d : Char) (ds : List Char), d.isDigit = true → (∀ c ∈ ds, c.isDigit = true) →
      preprocess_text_for_speech ⟨'H' :: 'B' :: d :: ds⟩ = ⟨"House Bill ".data ++ d :: ds⟩) ∧
    (preprocess_text_for_speech "HB123" = "House Bill 123" ∧
     preprocess_text_for_speech "SB7" = "Senate Bill 7" ∧
     preprocess_text_for_speech "HD7" = "House Draft 7" ∧
     preprocess_text_for_speech "SD7" = "Senate Draft 7" ∧
     preprocess_text_for_speech "CD7" = "Conference Draft 7" ∧
     preprocess_text_for_speech "FD7" = "Final Draft 7" ∧
     preprocess_text_for_speech "GM7" = "Governors Message 7") := by
  refine ⟨by decide, ?_, by decide⟩
  intro d ds hd hds
  exact preprocess_code_digit hd hds

theorem c2_witness :
    ('1'.isDigit = true ∧ (∀ c ∈ ['2', '3'], c.isDigit = true)) ∧
    preprocess_text_for_speech ⟨'H' :: 'B' :: '1' :: ['2', '3']⟩
      = ⟨"House Bill ".data ++ '1' :: ['2', '3']⟩ :=
  ⟨⟨by decide, by decide⟩,
   c2_rule_order_and_digit_spacing.2.1 '1' ['2', '3'] (by decide) (by decide)⟩

/-- C3: abbreviation matching is boundary-aware and case-sensitive: no code
pattern matches after a word character, the standalone pattern never matches
when a word character follows the code, and concretely embedded or
lower-case codes stay untouched while a standalone `HB` expands cleanly. -/
theorem c3_whole_token_case_sensitive :
    (∀ (code : List Char) (p : Char) (s : List Char), isWordChar p = true →
       matchAt (.codeNum code) (some p) s = none ∧
       matchAt (.codeAlone code) (some p) s = none) ∧
    (∀ (code : List Char) (prev : Option Char) (c : Char) (rest : List Char),
       isWordChar c = true → matchAt (.codeAlone code) prev (code ++ c :: rest) = none) ∧
    (preprocess_text_for_speech "AHB" = "AHB" ∧
     preprocess_text_for_speech "HBx" = "HBx" ∧
     preprocess_text_for_speech "hb 1" = "hb 1" ∧
     preprocess_text_for_speech "Hb Sb" = "Hb Sb" ∧
     preprocess_text_for_speech "the HB passed" = "the House Bill passed") := by
  refine ⟨?_, ?_, by decide⟩
  · intro code p s h
    exact ⟨matchAt_codeNum_word_prev code p s h, matchAt_codeAlone_word_prev code p s h⟩
  · intro code prev c rest h
    exact matchAt_codeAlone_word_next code prev c rest h

theorem c3_witness :
    (isWordChar 'A' = true ∧ matchAt (.codeNum "HB".data) (some 'A') "HB1".data = none) ∧
    (isWordChar 'x' = true ∧ matchAt (.codeAlone "HB".data) none ("HB".data ++ 'x' :: []) = none) :=
  ⟨⟨by decide,
    (c3_whole_token_case_sensitive.1 "HB".data 'A' "HB1".data (by decide)).1⟩,
   ⟨by decide,
    c3_whole_token_case_sensitive.2.1 "HB".data none 'x' [] (by decide)⟩⟩

/-- C4 (counterexample): the worked example does not normalize to the exact
string claimed — the deleted URL's trailing `%`-expansion leaves a final
space, so the output ends `"... 50 percent "` rather than `"... 50 percent"`. -/
theorem c4_counterexample :
    preprocess_text_for_speech "§5 funds $100 & more (see *note*) at http://x.gov 50%"
      ≠ "Section 5 funds $100 and more see note at 50 percent" := by decide

/-- C4 (amended): the worked example normalizes to
`"Section 5 funds $100 and more see note at 50 percent "` — URL, parens and
asterisks removed, `§`/`&`/`%` expanded, interior whitespace collapsed to
single spaces, and one trailing space left by the `%` expansion. -/
theorem c4_amended :
    preprocess_text_for_speech "§5 funds $100 & more (see *note*) at http://x.gov 50%"
      = "Section 5 funds $100 and more see note at 50 percent " := by decide

set_option maxRecDepth 8000 in
/-- C5: the rendered prompt is exactly the fixed template with the two bill
texts spliced in verbatim — "First Bill Text:" closes the header directly
before `bill1_text`, "Second Bill Text:" sits between the two texts (and
nowhere earlier), the role preamble, guideline list and worked example all
precede the first delimiter — and the LLM collaborator is invoked on exactly
this prompt built from the raw, un-normalized request fields (shown by an
echoing collaborator whose reply surfaces as the summary). -/
theorem c5_prompt_embeds_inputs_verbatim :
    (∀ b1 b2 : String, (buildPrompt b1 b2).data
        = promptHeader.data ++ b1.data ++ promptMiddle.data ++ b2.data ++ promptFooter.data) ∧
    containsSub "First Bill Text:".data promptHeader.data = true ∧
    endsWith ("First Bill Text:\n            ".data) promptHeader.data = true ∧
    containsSub "Second Bill Text:".data promptMiddle.data = true ∧
    containsSub "Second Bill Text:".data promptHeader.data = false ∧
    containsSub "Role: Senior Legislative Analyst".data promptHeader.data = true ∧
    containsSub "Guidelines:".data promptHeader.data = true ∧
    containsSub "Example Style:".data promptHeader.data = true ∧
    (∀ (synth : String → Except String String) (req : CompareRequest),
      isBlank req.bill1_text = false → isBlank req.bill2_text = false →
      ∃ a, compare_and_speak (fun p => Except.ok (some ("X" ++ p))) synth req
          = .body { summary := "X" ++ buildPrompt req.bill1_text req.bill2_text,
                    audio_base64 := a, success := true, error := none }) := by
  refine ⟨?_, by decide, by decide, by decide, by decide, by decide, by decide, by decide, ?_⟩
  · intro b1 b2
    simp [buildPrompt, String.data_append]
  · intro synth req h1 h2
    have hne : ("X" ++ buildPrompt req.bill1_text req.bill2_text) ≠ "" := by
      intro h
      have hlen := congrArg String.length h
      rw [String.length_append] at hlen
      have hx : ("X" : String).length = 1 := rfl
      have h0 : ("" : String).length = 0 := rfl
      rw [hx, h0] at hlen
      omega
    cases hsynth : synth (preprocess_text_for_speech
        ("X" ++ buildPrompt req.bill1_text req.bill2_text)) with
    | ok a =>
        exact ⟨some a, by simp [compare_and_speak, compare_inner, h1, h2, hne, hsynth]⟩
    | error e =>
        exact ⟨none, by simp [compare_and_speak, compare_inner, h1, h2, hne, hsynth]⟩

theorem c5_witness :
    (isBlank "a" = false ∧ isBlank "b" = false) ∧
    ∃ a, compare_and_speak (fun p => Except.ok (some ("X" ++ p))) (fun _ => Except.error "x")
          ⟨"a", "b"⟩
        = .body { summary := "X" ++ buildPrompt "a" "b", audio_base64 := a,
                  success := true, error := none } :=
  ⟨⟨by decide, by decide⟩,
   c5_prompt_embeds_inputs_verbatim.2.2.2.2.2.2.2.2
     (fun _ => Except.error "x") ⟨"a", "b"⟩ (by decide) (by decide)⟩

/-- C6: when the LLM returns a non-empty summary and the TTS collaborator
raises, the endpoint still answers with `success = true`, that summary, and
`audio_base64 = none`; no error is reported. -/
theorem c6_tts_failure_nonfatal
    (llm : String → Except String (Option String)) (synth : String → Except String String)
    (req : CompareRequest) (t e : String)
    (h1 : isBlank req.bill1_text = false) (h2 : isBlank req.bill2_text = false)
    (hllm : llm (buildPrompt req.bill1_text req.bill2_text) = .ok (some t))
    (ht : t ≠ "")
    (htts : synth (preprocess_text_for_speech t) = .error e) :
    compare_and_speak llm synth req
      = .body { summary := t, audio_base64 := none, success := true, error := none } := by
  simp [compare_and_speak, compare_inner, h1, h2, hllm, ht, htts]

theorem c6_witness :
    (isBlank "a" = false ∧ isBlank "b" = false ∧ ("S" : String) ≠ "") ∧
    compare_and_speak (fun _ => Except.ok (some "S")) (fun _ => Except.error "boom") ⟨"a", "b"⟩
      = .body { summary := "S", audio_base64 := none, success := true, error := none } :=
  ⟨⟨by decide, by decide, by decide⟩,
   c6_tts_failure_nonfatal (fun _ => Except.ok (some "S")) (fun _ => Except.error "boom")
     ⟨"a", "b"⟩ "S" "boom" (by decide) (by decide) rfl (by decide) rfl⟩

/-- C7: when the LLM collaborator yields a missing or empty text payload, or
raises, the endpoint answers in the response body with `success = false`,
empty `summary`, and a non-empty error string — never as an HTTP-layer
exception. -/
theorem c7_llm_failure_encoded
    (llm : String → Except String (Option String)) (synth : String → Except String String)
    (req : CompareRequest)
    (h1 : isBlank req.bill1_text = false) (h2 : isBlank req.bill2_text = false)
    (h : llm (buildPrompt req.bill1_text req.bill2_text) = .ok none ∨
         llm (buildPrompt req.bill1_text req.bill2_text) = .ok (some "") ∨
         ∃ m, llm (buildPrompt req.bill1_text req.bill2_text) = .error m) :
    ∃ err, compare_and_speak llm synth req
        = .body { summary := "", audio_base64 := none, success := false, error := some err }
      ∧ err ≠ "" := by
  rcases h with h | h | ⟨m, h⟩
  · refine ⟨"Failed to process request: " ++ "Gemini API returned empty response",
      ?_, failed_ne_empty _⟩
    simp [compare_and_speak, compare_inner, h1, h2, h, strOfExn]
  · refine ⟨"Failed to process request: " ++ "Gemini API returned empty response",
      ?_, failed_ne_empty _⟩
    simp [compare_and_speak, compare_inner, h1, h2, h, strOfExn]
  · refine ⟨"Failed to process request: " ++ m, ?_, failed_ne_empty _⟩
    simp [compare_and_speak, compare_inner, h1, h2, h, strOfExn]

theorem c7_witness :
    (isBlank "a" = false ∧ isBlank "b" = false) ∧
    ∃ err, compare_and_speak (fun _ => Except.ok none) (fun _ => Except.ok "A") ⟨"a", "b"⟩
        = .body { summary := "", audio_base64 := none, success := false, error := some err }
      ∧ err ≠ "" :=
  ⟨⟨by decide, by decide⟩,
   c7_llm_failure_encoded (fun _ => Except.ok none) (fun _ => Except.ok "A") ⟨"a", "b"⟩
     (by decide) (by decide) (Or.inl rfl)⟩

theorem compare_inner_ok {llm : String → Except String (Option String)}
    {synth : String → Except String String} {req : CompareRequest} {resp : CompareResponse}
    (h : compare_inner llm synth req = .ok resp) :
    resp.success = true ∧ resp.summary ≠ "" ∧ resp.error = none := by
  by_cases hb : (isBlank req.bill1_text || isBlank req.bill2_text) = true
  · simp [compare_inner, hb] at h
  · rw [Bool.not_eq_true] at hb
    cases hllm : llm (buildPrompt req.bill1_text req.bill2_text) with
    | error m => simp [compare_inner, hb, hllm] at h
    | ok topt =>
        cases topt with
        | none => simp [compare_inner, hb, hllm] at h
        | some t =>
            by_cases ht : t = ""
            · simp [compare_inner, hb, hllm, ht] at h
            · simp [compare_inner, hb, hllm, ht] at h
              rw [← h]
              exact ⟨rfl, ht, rfl⟩

/-- C8: every `CompareResponse` body the endpoint returns satisfies the
invariant: on failure the summary is empty and the error is populated and
non-empty; on success the summary is non-empty. -/
theorem c8_response_invariant (llm : String → Except String (Option String))
    (synth : String → Except String String) (req : CompareRequest) (r : CompareResponse)
    (h : compare_and_speak llm synth req = .body r) :
    (r.success = false → r.summary = "" ∧ ∃ e, r.error = some e ∧ e ≠ "") ∧
    (r.success = true → r.summary ≠ "") := by
  unfold compare_and_speak at h
  cases hinner : compare_inner llm synth req with
  | ok resp =>
      rw [hinner] at h
      simp only [] at h
      injection h with h2
      subst h2
      obtain ⟨hs, hsum, herr⟩ := compare_inner_ok hinner
      constructor
      · intro hfalse
        rw [hs] at hfalse
        exact Bool.noConfusion hfalse
      · intro _
        exact hsum
  | error e =>
      rw [hinner] at h
      simp only [] at h
      injection h with h2
      subst h2
      constructor
      · intro _
        exact ⟨rfl, "Failed to process request: " ++ strOfExn e, rfl, failed_ne_empty _⟩
      · intro htrue
        exact Bool.noConfusion htrue

theorem c8_witness :
    compare_and_speak (fun _ => Except.ok (some "S")) (fun _ => Except.ok "QQ") ⟨"a", "b"⟩
      = .body { summary := "S", audio_base64 := some "QQ", success := true, error := none }
    ∧ ((({ summary := "S", audio_base64 := some "QQ", success := true,
           error := none } : CompareResponse).success = false →
        ({ summary := "S", audio_base64 := some "QQ", success := true,
           error := none } : CompareResponse).summary = ""
        ∧ ∃ e, ({ summary := "S", audio_base64 := some "QQ", success := true,
                  error := none } : CompareResponse).error = some e ∧ e ≠ "")
       ∧ (({ summary := "S", audio_base64 := some "QQ", success := true,
             error := none } : CompareResponse).success = true →
          ({ summary := "S", audio_base64 := some "QQ", success := true,
             error := none } : CompareResponse).summary ≠ "")) :=
  ⟨by decide,
   c8_response_invariant (fun _ => Except.ok (some "S")) (fun _ => Except.ok "QQ")
     ⟨"a", "b"⟩ _ (by decide)⟩

/-- C9: on an already-normalized string — no draft-code substring, no
special symbol, no URL, no multi-character whitespace run — running the
normalizer twice gives the same result as running it once.  (A single run
need not be the identity: a lone tab still becomes a space.) -/
theorem c9_idempotent_on_normalized (s : String) (h : isNormalized s.data) :
    preprocess_text_for_speech (preprocess_text_for_speech s) = preprocess_text_for_speech s := by
  have h1 : preprocess_text_for_speech s = ⟨mapWs s.data⟩ := by
    rw [preprocess_mk]
    exact congrArg String.mk (pass_eq_mapWs h)
  have h2 : preprocess_text_for_speech ⟨mapWs s.data⟩ = ⟨mapWs (mapWs s.data)⟩ := by
    rw [preprocess_mk, data_mk]
    exact congrArg String.mk (pass_eq_mapWs (isNormalized_mapWs h))
  rw [h1, h2, mapWs_idem]

theorem c9_witness :
    isNormalized ("ab c." : String).data ∧
    preprocess_text_for_speech (preprocess_text_for_speech "ab c.")
      = preprocess_text_for_speech "ab c." :=
  ⟨by decide, c9_idempotent_on_normalized "ab c." (by decide)⟩

/-- C10: no output of the normalizer contains any of the stripped characters
(quotes, apostrophe, parentheses, asterisks, brackets, braces) — in
particular the apostrophe that the `GM` expansion inserts is deleted by the
later punctuation rule, so `"GM1"` normalizes to `"Governors Message 1"` and
not to `"Governor's Message 1"`. -/
theorem c10_stripped_chars_never_survive :
    (∀ (s : String) (c : Char), c ∈ (preprocess_text_for_speech s).data →
       strippedChars.contains c = false) ∧
    preprocess_text_for_speech "GM1" = "Governors Message 1" ∧
    preprocess_text_for_speech "GM1" ≠ ⟨"Governor".data ++ '\'' :: "s Message 1".data⟩ :=
  ⟨fun s c hc => preprocess_no_strippedChars s c hc, by decide, by decide⟩

theorem c10_witness :
    ('a' ∈ (preprocess_text_for_speech "(a)").data) ∧ strippedChars.contains 'a' = false :=
  ⟨by decide, c10_stripped_chars_never_survive.1 "(a)" 'a' (by decide)⟩
